import Mathlib

/-!
Verification of the mining job core of ngpool: a shallow embedding of the
job-construction, merge-mining packing, Stratum parameter emission and
solve-verification code, together with theorems settling the frozen claims
about it.

Bytes are modelled as List Nat (each entry a byte value), Go int64 as Int,
Go uint32 arithmetic as Nat arithmetic reduced modulo 2^32 at each step.
External collaborators that are not part of this repository (the sha256d
hash, the JSON decoder) are abstracted: the hash is an explicit parameter,
so every structural theorem below holds for every hash function.
-/

namespace Ngpool

/-- Association-list lookup, modelling a Go map read returning (value, ok). -/
def alookup {α : Type} (m : List (String × α)) (k : String) : Option α :=
  match m with
  | [] => none
  | (k2, v) :: rest => if k2 = k then some v else alookup rest k

/-- Go map read m[k] for map[string]int64: a missing key yields the zero value. -/
def alookupD (m : List (String × Int)) (k : String) : Int :=
  (alookup m k).getD 0

/-- Go map assignment m[k] = v. -/
def mapSet {α : Type} (m : List (String × α)) (k : String) (v : α) : List (String × α) :=
  (k, v) :: m.filter (fun p => !(p.1 == k))

/-- Modulus of Go uint32 arithmetic. -/
def two32 : Nat := 2 ^ 32

/-- binary.LittleEndian.PutUint32: 4-byte little-endian encoding. -/
def le32 (n : Nat) : List Nat :=
  [n % 256, n / 256 % 256, n / 256 / 256 % 256, n / 256 / 256 / 256 % 256]

/-- 2-byte little-endian encoding (used by the Bitcoin varint). -/
def le16 (n : Nat) : List Nat := [n % 256, n / 256 % 256]

/-- 8-byte little-endian encoding (used by the Bitcoin varint). -/
def le64 (n : Nat) : List Nat := le32 (n % two32) ++ le32 (n / two32)

/-- wire.WriteVarInt: the Bitcoin variable-length integer encoding
(external wire library, standard format). -/
def varint (n : Nat) : List Nat :=
  if n < 253 then [n]
  else if n ≤ 65535 then 253 :: le16 n
  else if n ≤ 4294967295 then 254 :: le32 n
  else 255 :: le64 n

/-- A list of n zero bytes. -/
def zeros (n : Nat) : List Nat := List.replicate n 0

/-- blockchain.HashToBig: a 32-byte hash is reversed and read as a
big-endian 256-bit integer, i.e. the little-endian value of the bytes. -/
def natOfHashLE (bs : List Nat) : Nat :=
  bs.foldr (fun b acc => acc * 256 + b) 0

/-- common.ReverseBytes reverses a byte slice. -/
def reverseBytes (bs : List Nat) : List Nat := bs.reverse

/-- Value of one hex digit character, none when the character is not a
hex digit (encoding/hex behaviour). -/
def hexDigitVal (c : Char) : Option Nat :=
  if '0' ≤ c ∧ c ≤ '9' then some (c.toNat - '0'.toNat)
  else if 'a' ≤ c ∧ c ≤ 'f' then some (c.toNat - 'a'.toNat + 10)
  else if 'A' ≤ c ∧ c ≤ 'F' then some (c.toNat - 'A'.toNat + 10)
  else none

/-- encoding/hex.DecodeString on the character list of a string. -/
def hexDecodeChars : List Char → Except String (List Nat)
  | [] => Except.ok []
  | [_] => Except.error "odd length hex string"
  | c1 :: c2 :: rest =>
    match hexDigitVal c1, hexDigitVal c2, hexDecodeChars rest with
    | some hi, some lo, Except.ok bs => Except.ok ((hi * 16 + lo) :: bs)
    | _, _, _ => Except.error "invalid byte"

/-- Character of one hex digit value (lowercase, as encoding/hex). -/
def hexDigitChar (n : Nat) : Char :=
  if n < 10 then Char.ofNat ('0'.toNat + n) else Char.ofNat ('a'.toNat + n - 10)

/-- encoding/hex.EncodeToString. -/
def hexEncode (bs : List Nat) : String :=
  String.mk (bs.foldr (fun b acc => hexDigitChar (b / 16 % 16) :: hexDigitChar (b % 16) :: acc) [])

/-- An abstract byte-level hash function standing for the external sha256d
implementation (github.com/seehuhn/sha256d), which is not part of this
repository.  The structural theorems below hold for every hash. -/
structure HashFn where
  apply : List Nat → List Nat

/-- One step of the merkle-branch walk as the source performs it with a
stateful hasher: Write appends rootHash and the branch element to the
hasher buffer, Sum digests everything written since the last Reset, and
Reset clears the buffer.  The state is (hasher buffer, rootHash). -/
def merkleStep (H : HashFn) (st : List Nat × List Nat) (b : List Nat) : List Nat × List Nat :=
  ([], H.apply (st.1 ++ st.2 ++ b))

/-- Walk rootHash down a merkle branch starting from hasher buffer buf0.
The buffer is empty when the code uses a fresh hasher or Reset first; in
GetZCashStratumParams, which lacks the Reset, the coinbase bytes are still
pending in the buffer when the walk starts. -/
def merkleWalk (H : HashFn) (buf0 : List Nat) (root0 : List Nat) (branch : List (List Nat)) : List Nat :=
  (branch.foldl (merkleStep H) (buf0, root0)).2

/-- service.Algo: an algorithm name and its PoW hash function. -/
structure Algo where
  name : String
  powHash : List Nat → Except String (List Nat)

/-- service.ChainConfig, restricted to the fields the job core reads. -/
structure ChainConfig where
  code : String
  multiAlgo : Bool
  multiAlgoMap : List (String × Nat)
  multiAlgoBitWidth : Nat
  multiAlgoBitShift : Nat
  flushAux : Bool
  blockSubsidyAddress : String

/-- setAlgoVersion from the source.  NOTE: the Go expression
2 ^ config.MultiAlgoBitWidth uses the Go XOR operator (Go has no
exponentiation operator), rendered faithfully here with Nat XOR; the
subtraction wraps in uint32, rendered as adding 2^32 before subtracting
one and reducing. -/
def setAlgoVersion (version : Nat) (config : ChainConfig) (algo : Algo) : Nat :=
  if config.multiAlgo then
    let algoCode := (alookup config.multiAlgoMap algo.name).getD 0
    let mask := ((((2 ^^^ config.multiAlgoBitWidth % two32) + two32 - 1) % two32) <<< config.multiAlgoBitShift) % two32
    let v2 := version &&& ((two32 - 1) ^^^ mask)
    (v2 ||| ((algoCode <<< config.multiAlgoBitShift) % two32)) % two32
  else version

/-- The aux-template extras carried by getblocktemplate_aux payloads. -/
structure TemplateExtras where
  chainID : Nat

/-- One template transaction: its raw serialized bytes, hex-encoded. -/
structure Transaction where
  data : String

/-- A parsed getblocktemplate payload.  The JSON decoding itself is
performed by the external encoding/json library, so templates enter the
embedding already parsed. -/
structure BlockTemplate where
  version : Nat
  curTime : Nat
  previousBlockhash : String
  bits : String
  height : Int
  coinbaseValue : Int
  transactions : List Transaction
  extras : TemplateExtras

/-- The key of the template map fed to NewJobFromTemplates. -/
structure TemplateKey where
  currency : String
  templateType : String

/-- Modelled from the spec: the target is a 256-bit unsigned integer
derived from bits by the standard Bitcoin compact expansion (the getTarget
helper is code of this repository that is not under src/).  bits is a
big-endian hex string: one exponent byte then a 3-byte mantissa. -/
def BlockTemplate.getTarget (t : BlockTemplate) : Except String Nat :=
  match hexDecodeChars t.bits.data with
  | Except.error e => Except.error e
  | Except.ok bs =>
    match bs with
    | [e, m1, m2, m3] =>
      let mant := m1 * 65536 + m2 * 256 + m3
      if e ≥ 3 then Except.ok (mant * 256 ^ (e - 3)) else Except.ok (mant / 256 ^ (3 - e))
    | _ => Except.error "invalid bits length"

/-- Hash two adjacent nodes at a time (one merkle level over a list of
even length). -/
def pairUp (H : HashFn) : List (List Nat) → List (List Nat)
  | a :: b :: rest => H.apply (a ++ b) :: pairUp H rest
  | _ => []

/-- Duplicate the last element when the list has odd length. -/
def dupLast (l : List (List Nat)) : List (List Nat) :=
  if l.length % 2 = 1 then l ++ [l.getLastD []] else l

/-- Modelled from the spec: the merkle branch a coinbase leaf must
traverse to reach the root — the list of sibling hashes at each level,
omitting the coinbase itself (the template merkleBranch helper is code of
this repository that is not under src/).  At every level the coinbase
placeholder occupies slot zero, so its sibling is the first listed hash;
the remaining hashes are padded to even length and combined pairwise. -/
def merkleBranchLevels (H : HashFn) : Nat → List (List Nat) → List (List Nat)
  | _, [] => []
  | 0, _ => []
  | fuel + 1, h :: rest => h :: merkleBranchLevels H fuel (pairUp H (dupLast rest))

/-- Modelled from the spec: transaction hashes are the double-sha256 of
each transaction's raw bytes, computed on demand. -/
def txHashes (H : HashFn) (txs : List (List Nat)) : List (List Nat) :=
  txs.map H.apply

/-- Modelled from the spec: the merkle branch of the template's
transaction list for the coinbase leaf. -/
def BlockTemplate.merkleBranch (H : HashFn) (t : BlockTemplate) : List (List Nat) :=
  merkleBranchLevels H t.transactions.length
    (txHashes H (t.transactions.map (fun tx => ((hexDecodeChars tx.data.data).toOption).getD [])))

/-- Modelled from the spec: the merkle root reconstructed by hashing the
coinbase hash against each branch element left-to-right. -/
def BlockTemplate.merkleRoot (H : HashFn) (t : BlockTemplate) (coinbaseHash : List Nat) : List Nat :=
  merkleWalk H [] coinbaseHash (t.merkleBranch H)

/-- Modelled from the spec: the BIP-34 height push opening the coinbase
scriptSig (a length byte then the height bytes). -/
def bip34Push (h : Int) : List Nat := 4 :: le32 h.toNat

/-- Modelled from the spec (createCoinbaseSplit is code of this repository
that is not under src/): the coinbase transaction split at the extranonce
insertion point.  coinbase1 carries the version and a scriptSig beginning
with the BIP-34 height push followed by the merge-mining blob; coinbase2
carries the output paying the configured subsidy address the template's
coinbase value. -/
def createCoinbaseSplit (t : BlockTemplate) (config : ChainConfig) (blob : List Nat) :
    Except String (List Nat × List Nat) :=
  Except.ok
    (le32 1 ++ bip34Push t.height ++ blob,
     le64 t.coinbaseValue.toNat ++ (config.blockSubsidyAddress.data.map Char.toNat))

/-- Modelled from the spec: a full coinbase with a concrete empty
extranonce, as built for aux chains. -/
def createCoinbase (t : BlockTemplate) (config : ChainConfig) (blob : List Nat) :
    Except String (List Nat) :=
  match createCoinbaseSplit t config blob with
  | Except.ok (c1, c2) => Except.ok (c1 ++ c2)
  | Except.error e => Except.error e

/-- MainChainJob from the source (lines 407-428 of the job core file). -/
structure MainChainJob where
  currencyConfig : ChainConfig
  subsidy : Int
  height : Int
  bits : List Nat
  time : List Nat
  version : List Nat
  prevBlockHash : List Nat
  coinbase1 : List Nat
  coinbase2 : List Nat
  merkleBranch : List (List Nat)
  target : Nat
  transactions : List (List Nat)
  cleanJobs : Bool

/-- AuxChainJob from the source (lines 529-545). -/
structure AuxChainJob where
  currencyConfig : ChainConfig
  subsidy : Int
  height : Int
  headerHash : List Nat
  blockHeader : List Nat
  chainID : Nat
  blockchainMerkleBranch : List (List Nat)
  blockchainMerkleMask : Nat
  transactions : List (List Nat)
  coinbase : List Nat
  coinbaseHash : List Nat
  target : Nat

/-- The composite Job: an embedded MainChainJob plus the heights map, aux
chains and selected algo. -/
structure Job extends MainChainJob where
  heights : List (String × Int)
  auxChains : List AuxChainJob
  algo : Algo

/-- Decode the hex data of every template transaction (the transaction
loop of NewMainChainJob and NewAuxChainJob). -/
def decodeTxs : List Transaction → Except String (List (List Nat))
  | [] => Except.ok []
  | tx :: rest =>
    match hexDecodeChars tx.data.data, decodeTxs rest with
    | Except.ok d, Except.ok ds => Except.ok (d :: ds)
    | _, _ => Except.error "Invalid data from txn"

/-- NewMainChainJob from the source.  The hash parameter stands for the
external sha256d used by the merkle-branch computation. -/
def NewMainChainJob (H : HashFn) (tmpl : BlockTemplate) (config : ChainConfig) (algo : Algo) :
    Except String MainChainJob :=
  match tmpl.getTarget with
  | Except.error _ => Except.error "Error generating target"
  | Except.ok target =>
    let encodedTime := le32 (tmpl.curTime % two32)
    let version := setAlgoVersion (tmpl.version % two32) config algo
    match hexDecodeChars tmpl.previousBlockhash.data with
    | Except.error _ => Except.error "Invalid PreviousBlockhash"
    | Except.ok prevRaw =>
      match hexDecodeChars tmpl.bits.data with
      | Except.error _ => Except.error "Invalid bits"
      | Except.ok bitsRaw =>
        match decodeTxs tmpl.transactions with
        | Except.error e => Except.error e
        | Except.ok txs =>
          Except.ok
            { height := tmpl.height
              subsidy := tmpl.coinbaseValue
              currencyConfig := config
              transactions := txs
              bits := reverseBytes bitsRaw
              time := encodedTime
              version := le32 version
              prevBlockHash := reverseBytes prevRaw
              target := target
              merkleBranch := tmpl.merkleBranch H
              coinbase1 := []
              coinbase2 := []
              cleanJobs := true }

/-- NewAuxChainJob from the source: sets the AuxPoW flag bit 8 and the
chain id in bits 16-31 of the version, applies the multi-algo rewrite,
builds the standalone aux header and its hash, and rejects a zero chain
id.  chainhash.NewHash fails unless the digest is exactly 32 bytes. -/
def NewAuxChainJob (H : HashFn) (template : BlockTemplate) (config : ChainConfig) (algo : Algo) :
    Except String AuxChainJob :=
  match template.getTarget with
  | Except.error _ => Except.error "Error generating target"
  | Except.ok target =>
    let version0 := template.version % two32
    let version1 := version0 ||| (1 <<< 8)
    let version2 := (version1 ||| (((template.extras.chainID % two32) <<< 16) % two32)) % two32
    let version := setAlgoVersion version2 config algo
    match hexDecodeChars template.previousBlockhash.data with
    | Except.error _ => Except.error "Invalid PreviousBlockhash"
    | Except.ok prevRaw =>
      match createCoinbase template config [] with
      | Except.error e => Except.error e
      | Except.ok coinbase =>
        let coinbaseHash := H.apply coinbase
        let root := template.merkleRoot H coinbaseHash
        match hexDecodeChars template.bits.data with
        | Except.error _ => Except.error "Invalid bits"
        | Except.ok bitsRaw =>
          let blkHeader := le32 version ++ reverseBytes prevRaw ++ root ++
            le32 (template.curTime % two32) ++ reverseBytes bitsRaw ++ [0, 0, 0, 0]
          let headerHash := H.apply blkHeader
          if headerHash.length ≠ 32 then Except.error "invalid hash length"
          else
            match decodeTxs template.transactions with
            | Except.error e => Except.error e
            | Except.ok txs =>
              if template.extras.chainID = 0 then Except.error "Null chainid"
              else
                Except.ok
                  { height := template.height
                    subsidy := template.coinbaseValue
                    currencyConfig := config
                    target := target
                    coinbase := coinbase
                    coinbaseHash := coinbaseHash
                    transactions := txs
                    chainID := template.extras.chainID
                    headerHash := headerHash
                    blockHeader := blkHeader
                    blockchainMerkleBranch := []
                    blockchainMerkleMask := 0 }

/-- The slot value the packer computes for one chain id: the two
linear-congruential steps with merkle nonce zero and the chain id added
in between, each operation wrapping in uint32. -/
def slotOf (chainID : Nat) : Nat :=
  let s1 := (0 * 1103515245 + 12345) % two32
  let s2 := (s1 + chainID % two32) % two32
  (s2 * 1103515245 + 12345) % two32

/-- The packed slot table, kept as an association list from occupied slot
index to the header hash stored there (a Go slice whose unoccupied
entries are nil). -/
def slotLookup (t : List (Nat × List Nat)) (k : Nat) : Option (List Nat) :=
  match t with
  | [] => none
  | (k2, v) :: rest => if k2 = k then some v else slotLookup rest k

/-- One pass of the placement loop at a candidate merkleSize: place every
aux chain at its slot modulo uint32(merkleSize).  ok none signals a
collision (the code doubles the size and restarts); the error models the
Go runtime panic on modulus by zero, which uint32(merkleSize) reaches
when merkleSize grows to 2^32. -/
def placeChains (chains : List AuxChainJob) (size : Nat) (acc : List (Nat × List Nat)) :
    Except String (Option (List (Nat × List Nat))) :=
  match chains with
  | [] => Except.ok (some acc)
  | c :: rest =>
    if size % two32 = 0 then Except.error "integer divide by zero"
    else
      let idx := slotOf c.chainID % (size % two32)
      match slotLookup acc idx with
      | some _ => Except.ok none
      | none => placeChains rest size ((idx, c.headerHash) :: acc)

/-- The MerkleLoop of NewJobFromTemplates, with explicit fuel standing
for the unbounded Go loop: running out of fuel models divergence. -/
def packLoop (chains : List AuxChainJob) : Nat → Nat → Except String (Nat × List (Nat × List Nat))
  | 0, _ => Except.error "nontermination"
  | fuel + 1, size =>
    match placeChains chains size [] with
    | Except.error e => Except.error e
    | Except.ok (some t) => Except.ok (size, t)
    | Except.ok none => packLoop chains fuel (size * 2)

/-- Fuel covering every size the Go loop can probe before the uint32 cast
reaches zero (sizes 2^0 .. 2^32). -/
def packFuel : Nat := 64

/-- Materialize the packed slot table as the merkleBase slice: unoccupied
slots are nil, rendered as the empty byte list. -/
def materializeBase (size : Nat) (table : List (Nat × List Nat)) : List (List Nat) :=
  (List.range size).map (fun i => (slotLookup table i).getD [])

/-- Modelled from the spec: one merkle reduction over the slot table,
empty slots standing for 32 zero bytes (the merkleRoot helper over the
base is code of this repository that is not under src/). -/
def merkleReduce (H : HashFn) : Nat → List (List Nat) → List Nat
  | _, [] => zeros 32
  | _, [h] => h
  | 0, h :: _ :: _ => h
  | fuel + 1, h1 :: h2 :: rest => merkleReduce H fuel (pairUp H (h1 :: h2 :: rest))

/-- Modelled from the spec: the merkle root of the packed slot table. -/
def merkleRootOfBase (H : HashFn) (base : List (List Nat)) : List Nat :=
  merkleReduce H base.length (base.map (fun s => if s = [] then zeros 32 else s))

/-- Modelled from the spec (auxMerkleBranch is code of this repository
that is not under src/): walking from a slot index up the table, the
branch lists the sibling at every level and the mask records the index
bit at every level as a little-endian integer. -/
def auxBranchLevels (H : HashFn) : Nat → List (List Nat) → Nat → List (List Nat) × Nat
  | 0, _, _ => ([], 0)
  | fuel + 1, hs, idx =>
    if hs.length ≤ 1 then ([], 0)
    else
      let sib := hs.getD (idx ^^^ 1) (zeros 32)
      let upper := auxBranchLevels H fuel (pairUp H hs) (idx / 2)
      (sib :: upper.1, upper.2 * 2 + idx % 2)

/-- Modelled from the spec: the (branch, mask) pair of a leaf of the
packed slot table, empty slots standing for 32 zero bytes. -/
def auxMerkleBranch (H : HashFn) (base : List (List Nat)) (leaf : List Nat) :
    List (List Nat) × Nat :=
  auxBranchLevels H base.length (base.map (fun s => if s = [] then zeros 32 else s))
    (base.findIdx (fun s => s = leaf))

/-- The merge-mining blob written into mmCoinbase (the buffer writes of
NewJobFromTemplates): empty without aux chains, else the magic marker,
the reversed commitment (root of the base with several aux chains, the
single header hash with one), the size and the nonce in little-endian. -/
def mmBlob (H : HashFn) (auxChains : List AuxChainJob) (merkleBase : List (List Nat))
    (merkleSize : Nat) (merkleNonce : Nat) : List Nat :=
  match auxChains with
  | [] => []
  | mj :: restAux =>
    let commitment :=
      if restAux.length > 0 then reverseBytes (merkleRootOfBase H merkleBase)
      else reverseBytes mj.headerHash
    [250, 190, 109, 109] ++ commitment ++ le32 (merkleSize % two32) ++ le32 (merkleNonce % two32)

/-- The template-processing loop of NewJobFromTemplates.  Go iterates a
map; the embedding takes the entries as a list.  The mainJobSet flag and
the saved main template are fused into one Option.  The registry
parameter stands for the process-wide service.CurrencyConfig table. -/
def processTemplates (H : HashFn) (registry : List (String × ChainConfig)) (algo : Algo) :
    List (TemplateKey × BlockTemplate) → Option (MainChainJob × BlockTemplate) →
    List (String × Int) → List AuxChainJob →
    Except String (Option (MainChainJob × BlockTemplate) × List (String × Int) × List AuxChainJob)
  | [], mainJob, heights, auxChains => Except.ok (mainJob, heights, auxChains)
  | (tmplKey, tmpl) :: rest, mainJob, heights, auxChains =>
    match alookup registry tmplKey.currency with
    | none => Except.error ("No currency config for " ++ tmplKey.currency)
    | some chainConfig =>
      if tmplKey.templateType = "getblocktemplate_aux" then
        match NewAuxChainJob H tmpl chainConfig algo with
        | Except.error e => Except.error e
        | Except.ok auxChainJob =>
          processTemplates H registry algo rest mainJob
            (mapSet heights chainConfig.code auxChainJob.height) (auxChains ++ [auxChainJob])
      else if tmplKey.templateType = "getblocktemplate" then
        if mainJob.isSome then Except.error "You can only have one base currency template"
        else
          match NewMainChainJob H tmpl chainConfig algo with
          | Except.error e => Except.error e
          | Except.ok mainChainJob =>
            processTemplates H registry algo rest (some (mainChainJob, tmpl))
              (mapSet heights chainConfig.code mainChainJob.height) auxChains
      else Except.error ("Unrecognized TemplateType " ++ tmplKey.templateType)

/-- NewJobFromTemplates from the source: process the templates, pack the
aux chains into the blockchain merkle, compute each aux branch and mask,
compose the merge-mining blob and split the coinbase around it.  Every
failure aborts with an error and no Job. -/
def NewJobFromTemplates (H : HashFn) (registry : List (String × ChainConfig))
    (templates : List (TemplateKey × BlockTemplate)) (algo : Algo) : Except String Job :=
  match processTemplates H registry algo templates none [] [] with
  | Except.error e => Except.error e
  | Except.ok (none, _, _) => Except.error "Must have a main chain template"
  | Except.ok (some (mainChainJob, mainJobTemplate), heights, auxChains0) =>
    match packLoop auxChains0 packFuel 1 with
    | Except.error e => Except.error e
    | Except.ok (merkleSize, table) =>
      let merkleBase := materializeBase merkleSize table
      let auxChains := auxChains0.map (fun mj =>
        let bm := auxMerkleBranch H merkleBase mj.headerHash
        { mj with blockchainMerkleBranch := bm.1, blockchainMerkleMask := bm.2 })
      let blob := mmBlob H auxChains0 merkleBase merkleSize 0
      match createCoinbaseSplit mainJobTemplate mainChainJob.currencyConfig blob with
      | Except.error _ => Except.error "Unable to create coinbase"
      | Except.ok (c1, c2) =>
        Except.ok
          { toMainChainJob := { mainChainJob with coinbase1 := c1, coinbase2 := c2 }
            heights := heights
            auxChains := auxChains
            algo := algo }

/-- The second return value of SetFlush: Go returns an untyped
interface holding nil, the bare main height, or the heights map. -/
inductive SetFlushRet where
  | vnil
  | vheight (h : Int)
  | vheights (m : List (String × Int))
deriving DecidableEq

/-- SetFlush from the source, for a map argument (the Go type switch
falls through to (false, heights) for any other dynamic type; the claims
only exercise the map case).  The main chain advancing returns the bare
main height; only the main chain going backward drops the job; otherwise
the first flush-aux aux chain that advanced forces clean jobs.  The
returned Job carries the (possibly updated) cleanJobs flag. -/
def SetFlush (j : Job) (prev : List (String × Int)) : Job × Bool × SetFlushRet :=
  if j.height > alookupD prev j.currencyConfig.code then
    ({ j with cleanJobs := true }, false, SetFlushRet.vheight j.height)
  else if j.height < alookupD prev j.currencyConfig.code then
    (j, true, SetFlushRet.vnil)
  else
    match j.auxChains.find? (fun aux =>
        aux.currencyConfig.flushAux && decide (aux.height > alookupD prev aux.currencyConfig.code)) with
    | some _ => ({ j with cleanJobs := true }, false, SetFlushRet.vheights j.heights)
    | none => (j, false, SetFlushRet.vheights j.heights)

/-- GetBlockHeader from the source: version, previous hash, the merkle
walk of the coinbase hash down the branch (fresh hasher, so an empty
starting buffer), time, bits, nonce. -/
def GetBlockHeader (H : HashFn) (j : MainChainJob) (nonce : List Nat) (coinbaseHash : List Nat) :
    List Nat :=
  j.version ++ j.prevBlockHash ++ merkleWalk H [] coinbaseHash j.merkleBranch ++
    j.time ++ j.bits ++ nonce

/-- MainChainJob.GetBlock from the source: header, transaction count
varint, coinbase, transactions. -/
def MainChainJob.GetBlock (j : MainChainJob) (header : List Nat) (coinbase : List Nat) : List Nat :=
  header ++ varint (j.transactions.length + 1) ++ coinbase ++ j.transactions.flatten

/-- AuxChainJob.GetBlock from the source: the AuxPoW serialization. -/
def AuxChainJob.GetBlock (j : AuxChainJob) (coinbase : List Nat) (parentHash : List Nat)
    (coinbaseBranch : List (List Nat)) (parentHeader : List Nat) : List Nat :=
  j.blockHeader ++ coinbase ++ parentHash ++
    varint coinbaseBranch.length ++ coinbaseBranch.flatten ++ [0, 0, 0, 0] ++
    varint j.blockchainMerkleBranch.length ++ j.blockchainMerkleBranch.flatten ++
    le32 (j.blockchainMerkleMask % two32) ++ parentHeader ++
    varint (j.transactions.length + 1) ++ j.coinbase ++ j.transactions.flatten

/-- The seven entries GetZCashStratumParams returns (a Go []interface
value, modelled positionally). -/
structure ZCashParams where
  version : String
  prevHash : String
  root : String
  reserved : String
  time : String
  bits : String
  cleanJobs : Bool
deriving DecidableEq

/-- GetZCashStratumParams from the source.  The coinbase is composed with
an 8-byte zero extranonce placeholder and hashed; the merkle walk then
starts WITHOUT a hasher Reset, so the coinbase bytes are still pending in
the hasher buffer when the first branch element is digested (unlike
GetBlockHeader and checkSolSolve, which walk with a clean buffer).  The
Go error result is always nil. -/
def GetZCashStratumParams (H : HashFn) (j : Job) : ZCashParams :=
  let coinbase := j.coinbase1 ++ zeros 8 ++ j.coinbase2
  let coinbaseHash := H.apply coinbase
  let rootHash := merkleWalk H coinbase coinbaseHash j.merkleBranch
  { version := hexEncode j.version
    prevHash := hexEncode j.prevBlockHash
    root := hexEncode rootHash
    reserved := String.mk (List.replicate 64 '0')
    time := hexEncode j.time
    bits := hexEncode j.bits
    cleanJobs := j.cleanJobs }

/-- SolutionSolve from the source (the equihash submission shape). -/
structure SolutionSolve where
  nonce2 : List Nat
  nTime : List Nat
  nonce1 : List Nat
  solution : List Nat
deriving DecidableEq

/-- SolutionSolve.GetKey from the source: nonce2, solution and nTime are
concatenated; nonce1 is NOT part of the key. -/
def SolutionSolve.GetKey (m : SolutionSolve) : List Nat :=
  m.nonce2 ++ m.solution ++ m.nTime

/-- ExtranonceSolve from the source (the classic submission shape). -/
structure ExtranonceSolve where
  nonce : List Nat
  nTime : List Nat
  extraNonce2 : List Nat
  extraNonce1 : List Nat
deriving DecidableEq

/-- ExtranonceSolve.GetKey from the source: all four fields concatenated. -/
def ExtranonceSolve.GetKey (m : ExtranonceSolve) : List Nat :=
  m.extraNonce2 ++ m.extraNonce1 ++ m.nTime ++ m.nonce

/-- BlockSolve from the source: the per-chain solve record. -/
structure BlockSolve where
  data : List Nat
  coinbaseHash : List Nat
  subsidyAddress : String
  powalgo : String
  subsidy : Int
  height : Int
  powhash : Nat
  target : Nat

/-- The aux-chain loop body shared by both check functions: when the PoW
integer meets the aux target, record that chain's BlockSolve in the map;
always append the chain code to the touched-currencies list. -/
def auxStep (pow : Nat) (f : AuxChainJob → BlockSolve)
    (acc : List (String × BlockSolve) × List String) (mj : AuxChainJob) :
    List (String × BlockSolve) × List String :=
  (if pow ≤ mj.target then mapSet acc.1 mj.currencyConfig.code (f mj) else acc.1,
   acc.2 ++ [mj.currencyConfig.code])

/-- The share test shared by both check functions: a share is valid when
a share target was supplied and the PoW integer is at least it (share
targets compare in the opposite direction of network targets). -/
def validShareOf (shareTarget : Option Nat) (pow : Nat) : Bool :=
  match shareTarget with
  | some t => decide (t ≤ pow)
  | none => false

/-- The per-chain solve collection shared by both check functions: the
main chain's BlockSolve when the PoW integer meets the main target, then
the aux-chain loop. -/
def buildSolves (j : Job) (pow : Nat) (mainSolve : BlockSolve)
    (auxSolve : AuxChainJob → BlockSolve) : List (String × BlockSolve) × List String :=
  let ret0 : List (String × BlockSolve) :=
    if pow ≤ j.target then mapSet [] j.currencyConfig.code mainSolve else []
  j.auxChains.foldl (auxStep pow auxSolve) (ret0, [j.currencyConfig.code])

/-- checkSolSolve from the source: compose the equihash header (job time
is replaced by the submitted nTime, nonce1/nonce2/solution appended), PoW
with the registry's sha256d algo, then the dual target comparison.  The
sha256dPoW parameter stands for service.AlgoConfig sha256d PoWHash.  The
hasher is Reset after the coinbase hash, so the merkle walk starts with a
clean buffer. -/
def checkSolSolve (H : HashFn) (sha256dPoW : List Nat → Except String (List Nat)) (j : Job)
    (solveData : SolutionSolve) (shareTarget : Option Nat) :
    Except String (List (String × BlockSolve) × Bool × List String) :=
  let coinbase := j.coinbase1 ++ zeros 8 ++ j.coinbase2
  let coinbaseHash := H.apply coinbase
  let rootHash := merkleWalk H [] coinbaseHash j.merkleBranch
  let header := j.version ++ j.prevBlockHash ++ rootHash ++ zeros 32 ++ solveData.nTime ++
    j.bits ++ solveData.nonce1 ++ solveData.nonce2 ++ solveData.solution
  match sha256dPoW header with
  | Except.error e => Except.error e
  | Except.ok headerHsh =>
    if headerHsh.length = 32 then
      let bigHsh := natOfHashLE headerHsh
      let res := buildSolves j bigHsh
        { data := j.toMainChainJob.GetBlock header coinbase
          coinbaseHash := coinbaseHash
          subsidyAddress := j.currencyConfig.blockSubsidyAddress
          powalgo := j.algo.name
          subsidy := j.subsidy
          height := j.height
          powhash := bigHsh
          target := j.target }
        (fun mj =>
          { data := mj.GetBlock coinbase headerHsh j.merkleBranch header
            subsidy := mj.subsidy
            height := mj.height
            coinbaseHash := mj.coinbaseHash
            subsidyAddress := mj.currencyConfig.blockSubsidyAddress
            powalgo := ""
            powhash := bigHsh
            target := mj.target })
      Except.ok (res.1, validShareOf shareTarget bigHsh, res.2)
    else Except.error "invalid hash length"

/-- checkExtranonceSolve from the source: the coinbase embeds the
submitted extranonces, the header is built by GetBlockHeader with the
job's stored time, PoW with the job's selected algo, then the dual
target comparison. -/
def checkExtranonceSolve (H : HashFn) (j : Job) (solveData : ExtranonceSolve)
    (shareTarget : Option Nat) :
    Except String (List (String × BlockSolve) × Bool × List String) :=
  let coinbase := j.coinbase1 ++ solveData.extraNonce1 ++ solveData.extraNonce2 ++ j.coinbase2
  let coinbaseHash := H.apply coinbase
  let header := GetBlockHeader H j.toMainChainJob solveData.nonce coinbaseHash
  match j.algo.powHash header with
  | Except.error e => Except.error e
  | Except.ok headerHsh =>
    if headerHsh.length = 32 then
      let bigHsh := natOfHashLE headerHsh
      let res := buildSolves j bigHsh
        { data := j.toMainChainJob.GetBlock header coinbase
          coinbaseHash := coinbaseHash
          subsidyAddress := j.currencyConfig.blockSubsidyAddress
          powalgo := j.algo.name
          subsidy := j.subsidy
          height := j.height
          powhash := bigHsh
          target := j.target }
        (fun mj =>
          { data := mj.GetBlock coinbase headerHsh j.merkleBranch header
            subsidy := mj.subsidy
            height := mj.height
            coinbaseHash := mj.coinbaseHash
            subsidyAddress := mj.currencyConfig.blockSubsidyAddress
            powalgo := ""
            powhash := bigHsh
            target := mj.target })
      Except.ok (res.1, validShareOf shareTarget bigHsh, res.2)
    else Except.error "invalid hash length"

/-- The two dynamic types CheckSolves accepts (the Go interface argument
as a tagged variant; any other dynamic type yields the unrecognized-solve
error, which the variant makes unrepresentable). -/
inductive Solve where
  | extranonce (s : ExtranonceSolve)
  | solution (s : SolutionSolve)

/-- CheckSolves from the source: dispatch on the solve variant. -/
def CheckSolves (H : HashFn) (sha256dPoW : List Nat → Except String (List Nat)) (j : Job)
    (solveData : Solve) (shareTarget : Option Nat) :
    Except String (List (String × BlockSolve) × Bool × List String) :=
  match solveData with
  | Solve.extranonce v => checkExtranonceSolve H j v shareTarget
  | Solve.solution v => checkSolSolve H sha256dPoW j v shareTarget

/-- The PoW big integer a solve evaluates to: the bigHsh computed by the
check functions, recomputed by the same pipeline (stated separately so
theorems can name it). -/
def powOfSolve (H : HashFn) (sha256dPoW : List Nat → Except String (List Nat)) (j : Job) :
    Solve → Except String Nat
  | Solve.extranonce v =>
    let coinbase := j.coinbase1 ++ v.extraNonce1 ++ v.extraNonce2 ++ j.coinbase2
    let coinbaseHash := H.apply coinbase
    let header := GetBlockHeader H j.toMainChainJob v.nonce coinbaseHash
    match j.algo.powHash header with
    | Except.error e => Except.error e
    | Except.ok headerHsh =>
      if headerHsh.length = 32 then Except.ok (natOfHashLE headerHsh)
      else Except.error "invalid hash length"
  | Solve.solution v =>
    let coinbase := j.coinbase1 ++ zeros 8 ++ j.coinbase2
    let coinbaseHash := H.apply coinbase
    let rootHash := merkleWalk H [] coinbaseHash j.merkleBranch
    let header := j.version ++ j.prevBlockHash ++ rootHash ++ zeros 32 ++ v.nTime ++
      j.bits ++ v.nonce1 ++ v.nonce2 ++ v.solution
    match sha256dPoW header with
    | Except.error e => Except.error e
    | Except.ok headerHsh =>
      if headerHsh.length = 32 then Except.ok (natOfHashLE headerHsh)
      else Except.error "invalid hash length"

/-! ### Concrete fixtures for witnesses and counterexamples -/

/-- A minimal chain config with the given code and flush-aux flag. -/
def cfgOf (c : String) (fa : Bool) : ChainConfig :=
  { code := c, multiAlgo := false, multiAlgoMap := [], multiAlgoBitWidth := 0,
    multiAlgoBitShift := 0, flushAux := fa, blockSubsidyAddress := "" }

/-- A minimal main-chain job with the given code and height. -/
def mainJobOf (c : String) (h : Int) : MainChainJob :=
  { currencyConfig := cfgOf c false, subsidy := 0, height := h, bits := [], time := [],
    version := [], prevBlockHash := [], coinbase1 := [], coinbase2 := [],
    merkleBranch := [], target := 0, transactions := [], cleanJobs := false }

/-- A minimal aux-chain job with the given code, flush-aux flag, height,
chain id and header hash. -/
def auxJobOf (c : String) (fa : Bool) (h : Int) (cid : Nat) (hh : List Nat) : AuxChainJob :=
  { currencyConfig := cfgOf c fa, subsidy := 0, height := h, headerHash := hh,
    blockHeader := [], chainID := cid, blockchainMerkleBranch := [],
    blockchainMerkleMask := 0, transactions := [], coinbase := [], coinbaseHash := [],
    target := 0 }

/-- A placeholder algo whose PoW hash is never consulted. -/
def algoNone : Algo := { name := "algo", powHash := fun _ => Except.error "unused" }

/-- Multi-algo config with bit width 1 at shift 0 mapping scrypt to code 0. -/
def cfgC2a : ChainConfig :=
  { code := "MA", multiAlgo := true, multiAlgoMap := [("scrypt", 0)],
    multiAlgoBitWidth := 1, multiAlgoBitShift := 0, flushAux := false,
    blockSubsidyAddress := "" }

/-- Multi-algo config with bit width 2 at shift 0 mapping scrypt to code 0. -/
def cfgC2b : ChainConfig :=
  { code := "MB", multiAlgo := true, multiAlgoMap := [("scrypt", 0)],
    multiAlgoBitWidth := 2, multiAlgoBitShift := 0, flushAux := false,
    blockSubsidyAddress := "" }

/-- The scrypt algo used by the multi-algo configs. -/
def algoScrypt : Algo := { name := "scrypt", powHash := fun _ => Except.error "unused" }

/-- A job whose aux chain height (3) went backward against prev (10)
while the main height is unchanged. -/
def jobC3 : Job :=
  { toMainChainJob := mainJobOf "MAIN" 5,
    heights := [("MAIN", 5), ("AUX", 3)],
    auxChains := [auxJobOf "AUX" true 3 7 []],
    algo := algoNone }

/-- The previous heights seen by jobC3: the aux chain was at 10. -/
def prevC3 : List (String × Int) := [("MAIN", 5), ("AUX", 10)]

/-- Previous heights with the main chain one block behind jobC3. -/
def prevC3adv : List (String × Int) := [("MAIN", 4), ("AUX", 3)]

/-- A job agreeing with its own heights map. -/
def jobC9 : Job :=
  { toMainChainJob := mainJobOf "MAIN" 5,
    heights := [("MAIN", 5), ("AUX", 3)],
    auxChains := [auxJobOf "AUX" true 3 7 []],
    algo := algoNone }

/-- A toy hash distinguishing inputs by length, exposing which bytes the
ZCash root computation digests. -/
def H4 : HashFn := ⟨fun l => [l.length % 256]⟩

/-- A job with a one-byte coinbase1 and one (empty) merkle branch element. -/
def jobC4 : Job :=
  { toMainChainJob := { mainJobOf "MAIN" 0 with coinbase1 := [7], merkleBranch := [[]] },
    heights := [],
    auxChains := [],
    algo := algoNone }

/-- A hash returning 32 zero bytes, for the C1 witness. -/
def HC1 : HashFn := ⟨fun _ => zeros 32⟩

/-- An algo whose PoW hash returns 32 zero bytes. -/
def algoC1 : Algo := { name := "sha", powHash := fun _ => Except.ok (zeros 32) }

/-- A sha256d PoW stub returning 32 zero bytes. -/
def shaC1 : List Nat → Except String (List Nat) := fun _ => Except.ok (zeros 32)

/-- A minimal job for the C1 witness. -/
def jobC1 : Job :=
  { toMainChainJob := mainJobOf "MAIN" 0,
    heights := [("MAIN", 0)],
    auxChains := [],
    algo := algoC1 }

/-- An empty extranonce solve for the C1 witness. -/
def solveC1 : Solve :=
  Solve.extranonce { nonce := [], nTime := [], extraNonce2 := [], extraNonce1 := [] }

/-- The main-chain BlockSolve the C1 witness run produces. -/
def bsC1 : BlockSolve :=
  { data := zeros 32 ++ [1], coinbaseHash := zeros 32, subsidyAddress := "",
    powalgo := "sha", subsidy := 0, height := 0, powhash := 0, target := 0 }

/-- The number of main-chain ("getblocktemplate") entries of a template list. -/
def countMains (l : List (TemplateKey × BlockTemplate)) : Nat :=
  (l.filter (fun p => p.1.templateType == "getblocktemplate")).length

/-- Aux chain with id 1 for the packer witnesses. -/
def auxW1 : AuxChainJob := auxJobOf "AX1" false 10 1 (List.replicate 32 1)

/-- Aux chain with id 42 for the packer witnesses. -/
def auxW2 : AuxChainJob := auxJobOf "AX2" false 11 42 (List.replicate 32 2)

/-- Aux chains with ids 1 and 2^31 + 1: distinct mod 2^32, but their
packer slots agree modulo every table size the loop can probe. -/
def auxP : AuxChainJob := auxJobOf "P" false 1 1 (zeros 32)

/-- See auxP. -/
def auxQ : AuxChainJob := auxJobOf "Q" false 1 (2 ^ 31 + 1) (zeros 32)

/-- Aux chains sharing chain id 5 modulo 2^32. -/
def auxR : AuxChainJob := auxJobOf "R" false 1 5 (zeros 32)

/-- See auxR. -/
def auxS : AuxChainJob := auxJobOf "S" false 1 (5 + 2 ^ 32) (zeros 32)

/-- The hash for the construction witnesses. -/
def HW : HashFn := ⟨fun _ => zeros 32⟩

/-- Registry with one currency for the construction witnesses. -/
def regW : List (String × ChainConfig) := [("LTC", cfgOf "LTC" false)]

/-- A valid main-chain template for the construction witnesses. -/
def tmplW : BlockTemplate :=
  { version := 1, curTime := 1500000000,
    previousBlockhash := "0000000000000000000000000000000000000000000000000000000000000000",
    bits := "1d00ffff", height := 100, coinbaseValue := 5000000000,
    transactions := [], extras := { chainID := 0 } }

/-- The template key for tmplW. -/
def keyW : TemplateKey := { currency := "LTC", templateType := "getblocktemplate" }

/-- The job the witness construction run produces. -/
def jobW : Job :=
  (NewJobFromTemplates HW regW [(keyW, tmplW)] algoNone).toOption.getD
    { toMainChainJob := mainJobOf "LTC" 0, heights := [], auxChains := [], algo := algoNone }

/-! ### Helper lemmas -/

theorem alookup_filter_self {α : Type} (m : List (String × α)) (k : String) :
    alookup (m.filter (fun p => !(p.1 == k))) k = none := by
  induction m with
  | nil => rfl
  | cons p rest ih =>
    by_cases hpk : p.1 = k
    · simpa [List.filter_cons, hpk] using ih
    · simpa [List.filter_cons, hpk, alookup] using ih

theorem alookup_filter_ne {α : Type} (m : List (String × α)) (k k2 : String) (h : k2 ≠ k) :
    alookup (m.filter (fun p => !(p.1 == k))) k2 = alookup m k2 := by
  induction m with
  | nil => rfl
  | cons p rest ih =>
    by_cases hpk : p.1 = k
    · have hp2 : ¬(p.1 = k2) := by
        rw [hpk]
        exact fun hc => h hc.symm
      simp [List.filter_cons, hpk, alookup, hp2, ih, Ne.symm h]
    · by_cases hp2 : p.1 = k2
      · simp [List.filter_cons, hpk, alookup, hp2, h]
      · simp [List.filter_cons, hpk, alookup, hp2, ih, h]

theorem alookup_mapSet_isSome {α : Type} (m : List (String × α)) (k k2 : String) (v : α) :
    (alookup (mapSet m k v) k2).isSome ↔ (k2 = k ∨ (alookup m k2).isSome) := by
  by_cases hk : k = k2
  · subst hk
    simp [mapSet, alookup]
  · have hne : k2 ≠ k := fun hc => hk hc.symm
    rw [mapSet]
    show (if k = k2 then some v else alookup (m.filter (fun p => !(p.1 == k))) k2).isSome ↔ _
    rw [if_neg hk, alookup_filter_ne m k k2 hne]
    simp [hne]

theorem auxFold_fst_alookup (pow : Nat) (f : AuxChainJob → BlockSolve)
    (l : List AuxChainJob) :
    ∀ (acc : List (String × BlockSolve)) (cs : List String) (code : String),
    (alookup (l.foldl (auxStep pow f) (acc, cs)).1 code).isSome ↔
      ((alookup acc code).isSome ∨
        ∃ mj ∈ l, code = mj.currencyConfig.code ∧ pow ≤ mj.target) := by
  induction l with
  | nil => intro acc cs code; simp
  | cons mj rest ih =>
    intro acc cs code
    rw [List.exists_mem_cons_iff (fun x => code = x.currencyConfig.code ∧ pow ≤ x.target) mj rest]
    by_cases ht : pow ≤ mj.target
    · have hih := ih (mapSet acc mj.currencyConfig.code (f mj)) (cs ++ [mj.currencyConfig.code]) code
      simp only [List.foldl_cons, auxStep, if_pos ht] at hih ⊢
      rw [hih, alookup_mapSet_isSome]
      simp only [ht, and_true]
      tauto
    · have hih := ih acc (cs ++ [mj.currencyConfig.code]) code
      simp only [List.foldl_cons, auxStep, if_neg ht] at hih ⊢
      rw [hih]
      have hmf : ¬(code = mj.currencyConfig.code ∧ pow ≤ mj.target) := fun hc => ht hc.2
      tauto

/-! ### Claim C2 — the multi-algo version rewrite -/

/-- Claim C2: the claim states that after setAlgoVersion the bits
[shift, shift+width) of the result equal the mapped algo code and every
other bit is unchanged.  The code computes the clearing mask with the Go
XOR operator ("2 ^ width" is 2 XOR width in Go, not an exponentiation),
contradicting its own "Clear all algo bits" comment.  At width 1, shift 0,
algo code 0 and version 1 the algo bit survives (result 1, bits [0,1) = 1
instead of 0); at width 2 and version 32 the mask wraps to all ones and
clears bit 5, which lies outside [0,2). -/
theorem setAlgoVersion_xor_bug :
    setAlgoVersion 1 cfgC2a algoScrypt = 1 ∧
    setAlgoVersion 1 cfgC2a algoScrypt % 2 ^ 1 ≠
      (alookup cfgC2a.multiAlgoMap algoScrypt.name).getD 0 ∧
    setAlgoVersion 32 cfgC2b algoScrypt = 0 ∧
    setAlgoVersion 32 cfgC2b algoScrypt / 2 ^ 5 % 2 ≠ 32 / 2 ^ 5 % 2 := by
  decide

/-! ### Claim C3 and C9 — SetFlush -/

/-- Claim C3 (counterexample): the claim states that SetFlush returns
drop = true whenever ANY chain of the job went backward against
prev_heights.  Here the aux chain went backward (3 < 10) with the main
chain unchanged, yet SetFlush returns drop = false: the code only
compares the main chain's height for the backward test. -/
theorem setFlush_aux_backward_no_drop :
    (∃ aux ∈ jobC3.auxChains, aux.height < alookupD prevC3 aux.currencyConfig.code) ∧
    (SetFlush jobC3 prevC3).2.1 = false := by
  decide

/-- Claim C3 (amended): SetFlush returns drop = true exactly when the
MAIN chain's height is strictly below its prev_heights entry (aux chains
are not consulted for the backward test).  When the main height advanced
it returns (false, the bare main height) — not the heights map — and
sets clean_jobs.  When the main height is unchanged it returns
(false, the job's heights map), with clean_jobs becoming true exactly
when it already was or some flush-aux aux chain advanced. -/
theorem setFlush_characterization (j : Job) (prev : List (String × Int)) :
    ((SetFlush j prev).2.1 = true ↔ j.height < alookupD prev j.currencyConfig.code) ∧
    (alookupD prev j.currencyConfig.code < j.height →
      SetFlush j prev = ({ j with cleanJobs := true }, false, SetFlushRet.vheight j.height)) ∧
    (j.height = alookupD prev j.currencyConfig.code →
      (SetFlush j prev).2 = (false, SetFlushRet.vheights j.heights) ∧
      ((SetFlush j prev).1.cleanJobs = true ↔ (j.cleanJobs = true ∨
        ∃ aux ∈ j.auxChains, aux.currencyConfig.flushAux = true ∧
          alookupD prev aux.currencyConfig.code < aux.height))) := by
  rcases lt_trichotomy (alookupD prev j.currencyConfig.code) j.height with h1 | h1 | h1
  · have hr : SetFlush j prev =
        ({ j with cleanJobs := true }, false, SetFlushRet.vheight j.height) := by
      simp [SetFlush, h1]
    refine ⟨?_, fun _ => hr, fun he => absurd he (by omega)⟩
    rw [hr]
    simp
    omega
  · have hn1 : ¬(j.height > alookupD prev j.currencyConfig.code) := by omega
    have hn2 : ¬(j.height < alookupD prev j.currencyConfig.code) := by omega
    have hpred : ∀ aux : AuxChainJob,
        ((aux.currencyConfig.flushAux &&
          decide (aux.height > alookupD prev aux.currencyConfig.code)) = true) ↔
        (aux.currencyConfig.flushAux = true ∧
          alookupD prev aux.currencyConfig.code < aux.height) := by
      intro aux
      simp [Bool.and_eq_true, decide_eq_true_eq]
    cases hf : j.auxChains.find? (fun aux =>
        aux.currencyConfig.flushAux &&
          decide (aux.height > alookupD prev aux.currencyConfig.code)) with
    | none =>
      have hnone : ∀ aux ∈ j.auxChains, ¬(aux.currencyConfig.flushAux = true ∧
          alookupD prev aux.currencyConfig.code < aux.height) := by
        intro aux hmem
        have := List.find?_eq_none.mp hf aux hmem
        rw [hpred aux] at this
        exact this
      refine ⟨?_, fun hc => absurd hc (by omega), fun _ => ?_⟩
      · simp [SetFlush, hn1, hn2, hf]
      · constructor
        · simp [SetFlush, hn1, hn2, hf]
        · simp only [SetFlush, if_neg hn1, if_neg hn2, hf]
          constructor
          · intro hc
            exact Or.inl hc
          · rintro (hc | ⟨aux, hmem, hflags⟩)
            · exact hc
            · exact absurd hflags (hnone aux hmem)
    | some a =>
      have hsome : ∃ aux ∈ j.auxChains, aux.currencyConfig.flushAux = true ∧
          alookupD prev aux.currencyConfig.code < aux.height := by
        have hmem := List.mem_of_find?_eq_some hf
        have hpa := List.find?_some hf
        exact ⟨a, hmem, (hpred a).mp hpa⟩
      refine ⟨?_, fun hc => absurd hc (by omega), fun _ => ?_⟩
      · simp [SetFlush, hn1, hn2, hf]
      · constructor
        · simp [SetFlush, hn1, hn2, hf]
        · simp only [SetFlush, if_neg hn1, if_neg hn2, hf]
          simp [hsome]
  · have hn1 : ¬(j.height > alookupD prev j.currencyConfig.code) := by omega
    have hr : SetFlush j prev = (j, true, SetFlushRet.vnil) := by
      simp [SetFlush, hn1, h1]
    refine ⟨?_, fun hc => absurd hc (by omega), fun he => absurd he (by omega)⟩
    rw [hr]
    simp [h1]

/-- Witness for the amended C3 theorem at a concrete job whose main
height advanced: SetFlush returns the bare main height. -/
theorem setFlush_characterization_witness :
    SetFlush jobC3 prevC3adv =
      ({ jobC3 with cleanJobs := true }, false, SetFlushRet.vheight jobC3.height) :=
  (setFlush_characterization jobC3 prevC3adv).2.1 (by decide)

/-- Claim C9: SetFlush applied with the job's own heights map (the map
being consistent with the main and aux heights) is a no-op: it returns
drop = false with the same heights map and the job unchanged, clean jobs
included. -/
theorem setFlush_own_heights (j : Job)
    (hmain : alookupD j.heights j.currencyConfig.code = j.height)
    (haux : ∀ aux ∈ j.auxChains, alookupD j.heights aux.currencyConfig.code = aux.height) :
    SetFlush j j.heights = (j, false, SetFlushRet.vheights j.heights) := by
  have hn1 : ¬(j.height > alookupD j.heights j.currencyConfig.code) := by omega
  have hn2 : ¬(j.height < alookupD j.heights j.currencyConfig.code) := by omega
  have hf : j.auxChains.find? (fun aux =>
      aux.currencyConfig.flushAux &&
        decide (aux.height > alookupD j.heights aux.currencyConfig.code)) = none := by
    rw [List.find?_eq_none]
    intro x hx
    simp [haux x hx]
  simp [SetFlush, hn1, hn2, hf]

/-- Witness for C9 at a concrete job. -/
theorem setFlush_own_heights_witness :
    SetFlush jobC9 jobC9.heights = (jobC9, false, SetFlushRet.vheights jobC9.heights) :=
  setFlush_own_heights jobC9 (by decide) (by decide)

/-! ### Claim C4 — the ZCash merkle root -/

/-- Claim C4: the claim states the ZCash root is obtained by r0 =
dsha(coinbase1 ‖ eight zero bytes ‖ coinbase2) followed by r = dsha(r ‖ b)
for each branch element.  GetZCashStratumParams never Resets the hasher
after summing the coinbase (unlike GetBlockHeader and checkSolSolve), so
the first walk step digests coinbase ‖ r0 ‖ b instead of r0 ‖ b.  With the
length-counting hash, coinbase1 = [7] and one empty branch element, the
coinbase is 9 bytes, r0 = [9], the code's root is [10] (= hash of the 10
pending bytes) while the claimed walk gives [1]. -/
theorem zcash_root_missing_reset :
    (GetZCashStratumParams H4 jobC4).root = hexEncode [10] ∧
    merkleWalk H4 [] (H4.apply (jobC4.coinbase1 ++ zeros 8 ++ jobC4.coinbase2))
      jobC4.merkleBranch = [1] ∧
    hexEncode [10] ≠ hexEncode [1] := by
  refine ⟨rfl, rfl, by decide⟩

/-! ### Claim C8 — duplicate-share keys -/

/-- Claim C8 (counterexample): the claim states SolutionSolve.GetKey
concatenates the fields nonce1, nonce2, n_time and solution, so that two
submissions differing in one field have different keys.  The code omits
nonce1: these two solves differ only in nonce1 yet share the key. -/
theorem solutionSolve_getKey_ignores_nonce1 :
    SolutionSolve.GetKey { nonce2 := [1], nTime := [2], nonce1 := [3], solution := [4] } =
      SolutionSolve.GetKey { nonce2 := [1], nTime := [2], nonce1 := [9], solution := [4] } ∧
    ({ nonce2 := [1], nTime := [2], nonce1 := [3], solution := [4] } : SolutionSolve) ≠
      { nonce2 := [1], nTime := [2], nonce1 := [9], solution := [4] } := by
  decide

/-- Claim C8 (amended): ExtranonceSolve.GetKey deterministically
concatenates all four of its variable fields, and with fixed field widths
two submissions differing in any field yield different keys.
SolutionSolve.GetKey concatenates only nonce2, solution and n_time —
nonce1 is not part of the key — and with fixed widths it is injective in
those three fields. -/
theorem getKey_concat_inj :
    (∀ m : ExtranonceSolve, m.GetKey = m.extraNonce2 ++ m.extraNonce1 ++ m.nTime ++ m.nonce) ∧
    (∀ m : SolutionSolve, m.GetKey = m.nonce2 ++ m.solution ++ m.nTime) ∧
    (∀ e1 e2 : ExtranonceSolve,
      e1.extraNonce2.length = e2.extraNonce2.length →
      e1.extraNonce1.length = e2.extraNonce1.length →
      e1.nTime.length = e2.nTime.length →
      e1.GetKey = e2.GetKey → e1 = e2) ∧
    (∀ s1 s2 : SolutionSolve,
      s1.nonce2.length = s2.nonce2.length →
      s1.solution.length = s2.solution.length →
      s1.GetKey = s2.GetKey →
      s1.nonce2 = s2.nonce2 ∧ s1.solution = s2.solution ∧ s1.nTime = s2.nTime) := by
  refine ⟨fun m => rfl, fun m => rfl, ?_, ?_⟩
  · rintro ⟨n1, t1, x1, y1⟩ ⟨n2, t2, x2, y2⟩ hx ht hy hk
    simp only [ExtranonceSolve.GetKey, List.append_assoc] at hx ht hy hk
    obtain ⟨hx2, hk2⟩ := List.append_inj hk hx
    obtain ⟨hy2, hk3⟩ := List.append_inj hk2 ht
    obtain ⟨ht2, hn2⟩ := List.append_inj hk3 hy
    simp_all
  · rintro ⟨n1, t1, x1, y1⟩ ⟨n2, t2, x2, y2⟩ hn ht hk
    simp only [SolutionSolve.GetKey, List.append_assoc] at hn ht hk
    obtain ⟨ha, hk2⟩ := List.append_inj hk hn
    obtain ⟨hb, hc⟩ := List.append_inj hk2 ht
    simp_all

/-- Witness for the amended C8 theorem at concrete solves. -/
theorem getKey_concat_inj_witness :
    ({ nonce := [1], nTime := [2], extraNonce2 := [3], extraNonce1 := [4] } : ExtranonceSolve) =
      { nonce := [1], nTime := [2], extraNonce2 := [3], extraNonce1 := [4] } ∧
    (([5] : List Nat) = [5] ∧ ([6] : List Nat) = [6] ∧ ([7] : List Nat) = [7]) := by
  constructor
  · exact getKey_concat_inj.2.2.1
      { nonce := [1], nTime := [2], extraNonce2 := [3], extraNonce1 := [4] }
      { nonce := [1], nTime := [2], extraNonce2 := [3], extraNonce1 := [4] } rfl rfl rfl rfl
  · exact getKey_concat_inj.2.2.2
      { nonce2 := [5], nTime := [7], nonce1 := [0], solution := [6] }
      { nonce2 := [5], nTime := [7], nonce1 := [8], solution := [6] } rfl rfl rfl

/-! ### Claim C1 — CheckSolves -/

theorem validShareOf_true_iff (st : Option Nat) (pow : Nat) :
    validShareOf st pow = true ↔ ∃ t, st = some t ∧ t ≤ pow := by
  cases st <;> simp [validShareOf]

theorem buildSolves_keys (j : Job) (pow : Nat) (m : BlockSolve)
    (f : AuxChainJob → BlockSolve) (code : String) :
    (alookup (buildSolves j pow m f).1 code).isSome ↔
      ((code = j.currencyConfig.code ∧ pow ≤ j.target) ∨
        ∃ mj ∈ j.auxChains, code = mj.currencyConfig.code ∧ pow ≤ mj.target) := by
  unfold buildSolves
  rw [auxFold_fst_alookup]
  by_cases ht : pow ≤ j.target
  · simp only [if_pos ht]
    rw [alookup_mapSet_isSome]
    simp [ht, alookup]
  · simp only [if_neg ht]
    simp [alookup, ht]

/-- Claim C1: whenever CheckSolves returns without error, the returned
valid-share flag is true exactly when a share target was supplied and
the PoW integer is at least it, and the set of chain codes holding a
BlockSolve is exactly the set of codes of chains (main or aux) whose
target the PoW integer meets. -/
theorem checkSolves_share_and_solved_chains (H : HashFn)
    (sha256dPoW : List Nat → Except String (List Nat)) (j : Job) (s : Solve)
    (shareTarget : Option Nat) (ret : List (String × BlockSolve)) (vs : Bool)
    (curr : List String)
    (h : CheckSolves H sha256dPoW j s shareTarget = Except.ok (ret, vs, curr)) :
    ∃ pow, powOfSolve H sha256dPoW j s = Except.ok pow ∧
      (vs = true ↔ ∃ t, shareTarget = some t ∧ t ≤ pow) ∧
      ∀ code, (alookup ret code).isSome ↔
        ((code = j.currencyConfig.code ∧ pow ≤ j.target) ∨
          ∃ mj ∈ j.auxChains, code = mj.currencyConfig.code ∧ pow ≤ mj.target) := by
  cases s with
  | extranonce v =>
    simp only [CheckSolves, checkExtranonceSolve] at h
    cases hph : j.algo.powHash (GetBlockHeader H j.toMainChainJob v.nonce
        (H.apply (j.coinbase1 ++ v.extraNonce1 ++ v.extraNonce2 ++ j.coinbase2))) with
    | error e =>
      rw [hph] at h
      simp at h
    | ok hsh =>
      rw [hph] at h
      by_cases hlen : hsh.length = 32
      · simp only [if_pos hlen] at h
        rw [Except.ok.injEq, Prod.mk.injEq, Prod.mk.injEq] at h
        obtain ⟨hr, hv, hc⟩ := h
        refine ⟨natOfHashLE hsh, ?_, ?_, ?_⟩
        · simp only [powOfSolve, hph, if_pos hlen]
        · rw [← hv]
          exact validShareOf_true_iff shareTarget (natOfHashLE hsh)
        · intro code
          rw [← hr]
          exact buildSolves_keys j (natOfHashLE hsh) _ _ code
      · simp only [if_neg hlen] at h
        exact Except.noConfusion h
  | solution v =>
    simp only [CheckSolves, checkSolSolve] at h
    cases hph : sha256dPoW (j.version ++ j.prevBlockHash ++
        merkleWalk H [] (H.apply (j.coinbase1 ++ zeros 8 ++ j.coinbase2)) j.merkleBranch ++
        zeros 32 ++ v.nTime ++ j.bits ++ v.nonce1 ++ v.nonce2 ++ v.solution) with
    | error e =>
      rw [hph] at h
      simp at h
    | ok hsh =>
      rw [hph] at h
      by_cases hlen : hsh.length = 32
      · simp only [if_pos hlen] at h
        rw [Except.ok.injEq, Prod.mk.injEq, Prod.mk.injEq] at h
        obtain ⟨hr, hv, hc⟩ := h
        refine ⟨natOfHashLE hsh, ?_, ?_, ?_⟩
        · simp only [powOfSolve, hph, if_pos hlen]
        · rw [← hv]
          exact validShareOf_true_iff shareTarget (natOfHashLE hsh)
        · intro code
          rw [← hr]
          exact buildSolves_keys j (natOfHashLE hsh) _ _ code
      · simp only [if_neg hlen] at h
        exact Except.noConfusion h

/-- Witness for C1 at a concrete run: the empty extranonce solve against
jobC1 with share target 0 yields a valid share and a main-chain solve. -/
theorem checkSolves_share_witness :
    ∃ pow, powOfSolve HC1 shaC1 jobC1 solveC1 = Except.ok pow ∧
      ((true = true) ↔ ∃ t, (some 0 : Option Nat) = some t ∧ t ≤ pow) ∧
      ∀ code, (alookup [("MAIN", bsC1)] code).isSome ↔
        ((code = jobC1.currencyConfig.code ∧ pow ≤ jobC1.target) ∨
          ∃ mj ∈ jobC1.auxChains, code = mj.currencyConfig.code ∧ pow ≤ mj.target) :=
  checkSolves_share_and_solved_chains HC1 shaC1 jobC1 solveC1 (some 0)
    [("MAIN", bsC1)] true ["MAIN"] (by rfl)

/-! ### Claim C5 — the packer slot assignment -/

theorem placeChains_no_panic (chains : List AuxChainJob) (size : Nat)
    (hs : size % two32 ≠ 0) : ∀ acc, ∃ r, placeChains chains size acc = Except.ok r := by
  induction chains with
  | nil => intro acc; exact ⟨some acc, rfl⟩
  | cons c rest ih =>
    intro acc
    simp only [placeChains, if_neg hs]
    cases hl : slotLookup acc (slotOf c.chainID % (size % two32)) with
    | some v => exact ⟨none, rfl⟩
    | none => exact ih ((slotOf c.chainID % (size % two32), c.headerHash) :: acc)

theorem placeChains_ok_some_head (c : AuxChainJob) (rest : List AuxChainJob) (size : Nat)
    (acc t : List (Nat × List Nat)) (h : placeChains (c :: rest) size acc = Except.ok (some t)) :
    size % two32 ≠ 0 := by
  intro hs
  simp [placeChains, hs] at h

theorem placeChains_sound (chains : List AuxChainJob) :
    ∀ (size : Nat) (acc t : List (Nat × List Nat)),
    placeChains chains size acc = Except.ok (some t) →
    (∀ k v, slotLookup acc k = some v → slotLookup t k = some v) ∧
    (∀ c ∈ chains, slotLookup t (slotOf c.chainID % (size % two32)) = some c.headerHash) := by
  induction chains with
  | nil =>
    intro size acc t h
    simp only [placeChains, Except.ok.injEq, Option.some.injEq] at h
    subst h
    exact ⟨fun k v hv => hv, by simp⟩
  | cons c rest ih =>
    intro size acc t h
    by_cases hs : size % two32 = 0
    · simp [placeChains, hs] at h
    · simp only [placeChains, if_neg hs] at h
      cases hl : slotLookup acc (slotOf c.chainID % (size % two32)) with
      | some v => rw [hl] at h; simp at h
      | none =>
        rw [hl] at h
        obtain ⟨hpres, hmem⟩ := ih size _ t h
        constructor
        · intro k v hv
          apply hpres
          by_cases hk : slotOf c.chainID % (size % two32) = k
          · subst hk
            rw [hl] at hv
            exact absurd hv (by simp)
          · simp [slotLookup, hk, hv]
        · intro x hx
          rcases List.mem_cons.mp hx with rfl | hx2
          · apply hpres
            simp [slotLookup]
          · exact hmem x hx2

theorem packLoop_sound (chains : List AuxChainJob) :
    ∀ (fuel size s : Nat) (t : List (Nat × List Nat)),
    packLoop chains fuel size = Except.ok (s, t) →
    placeChains chains s [] = Except.ok (some t) ∧ ∃ k, s = size * 2 ^ k := by
  intro fuel
  induction fuel with
  | zero => intro size s t h; simp [packLoop] at h
  | succ n ih =>
    intro size s t h
    simp only [packLoop] at h
    cases hp : placeChains chains size [] with
    | error e => rw [hp] at h; simp at h
    | ok o =>
      cases o with
      | some t2 =>
        rw [hp] at h
        simp only [Except.ok.injEq, Prod.mk.injEq] at h
        obtain ⟨h1, h2⟩ := h
        subst h1
        subst h2
        exact ⟨hp, 0, by simp⟩
      | none =>
        rw [hp] at h
        obtain ⟨hplace, k, hk⟩ := ih (size * 2) s t h
        exact ⟨hplace, k + 1, by rw [hk]; ring⟩

theorem placeChains_proj (c1 : List AuxChainJob) :
    ∀ c2 : List AuxChainJob,
    c1.map (fun c => (c.chainID, c.headerHash)) = c2.map (fun c => (c.chainID, c.headerHash)) →
    ∀ size acc, placeChains c1 size acc = placeChains c2 size acc := by
  induction c1 with
  | nil =>
    intro c2 hm size acc
    cases c2 with
    | nil => rfl
    | cons b r2 => simp at hm
  | cons a r ih =>
    intro c2 hm size acc
    cases c2 with
    | nil => simp at hm
    | cons b r2 =>
      simp only [List.map_cons, List.cons.injEq, Prod.mk.injEq] at hm
      obtain ⟨⟨hid, hhh⟩, htail⟩ := hm
      simp only [placeChains, hid, hhh]
      cases hl : slotLookup acc (slotOf b.chainID % (size % two32)) with
      | some v => rfl
      | none =>
        by_cases hs : size % two32 = 0
        · simp [hs]
        · simp [hs, ih r2 htail]

theorem packLoop_proj (c1 c2 : List AuxChainJob)
    (hm : c1.map (fun c => (c.chainID, c.headerHash)) =
      c2.map (fun c => (c.chainID, c.headerHash))) :
    ∀ fuel size, packLoop c1 fuel size = packLoop c2 fuel size := by
  intro fuel
  induction fuel with
  | zero => intro size; rfl
  | succ n ih =>
    intro size
    simp only [packLoop]
    rw [placeChains_proj c1 c2 hm size []]
    cases hp : placeChains c2 size [] with
    | error e => rfl
    | ok o =>
      cases o with
      | some t => rfl
      | none => exact ih (size * 2)

/-- Claim C5: in the packed table each aux chain occupies the slot
computed by the claim's linear-congruential formula (merkle nonce 0, each
operation wrapping in uint32) reduced modulo the final merkle size; the
final size is a genuine uint32 value; and the packer is a deterministic
function of the ordered (chain id, header hash) sequence. -/
theorem packer_slot_assignment (chains : List AuxChainJob) (fuel mSize : Nat)
    (table : List (Nat × List Nat))
    (h : packLoop chains fuel 1 = Except.ok (mSize, table)) :
    (∀ cid, slotOf cid = (((0 * 1103515245 + 12345) + cid) * 1103515245 + 12345) % two32) ∧
    mSize % two32 = mSize ∧
    (∀ c ∈ chains, slotLookup table (slotOf c.chainID % mSize) = some c.headerHash) ∧
    (∀ chains2 : List AuxChainJob,
      chains.map (fun c => (c.chainID, c.headerHash)) =
        chains2.map (fun c => (c.chainID, c.headerHash)) →
      ∀ f2 s2, packLoop chains f2 s2 = packLoop chains2 f2 s2) := by
  have hformula : ∀ cid : Nat,
      slotOf cid = (((0 * 1103515245 + 12345) + cid) * 1103515245 + 12345) % two32 := by
    intro cid
    simp only [slotOf, two32]
    norm_num
    omega
  obtain ⟨hplace, k, hk⟩ := packLoop_sound chains fuel 1 mSize table h
  rw [one_mul] at hk
  have hmod : mSize % two32 = mSize := by
    cases chains with
    | nil =>
      cases fuel with
      | zero => simp [packLoop] at h
      | succ n =>
        simp only [packLoop, placeChains, Except.ok.injEq, Prod.mk.injEq] at h
        obtain ⟨h1, _⟩ := h
        subst h1
        decide
    | cons c rest =>
      have hnz : mSize % two32 ≠ 0 := placeChains_ok_some_head c rest mSize [] table hplace
      have hk32 : k < 32 := by
        by_contra hk32
        have hdvd : (2:Nat) ^ 32 ∣ 2 ^ k := pow_dvd_pow 2 (by omega)
        obtain ⟨c, hc⟩ := hdvd
        have : mSize % two32 = 0 := by
          rw [hk, two32, hc, Nat.mul_mod_right]
        exact hnz this
      have : mSize < two32 := by
        rw [hk, two32]
        exact Nat.pow_lt_pow_right (by norm_num) hk32
      exact Nat.mod_eq_of_lt this
  refine ⟨hformula, hmod, ?_, fun chains2 hm f2 s2 => packLoop_proj chains chains2 hm f2 s2⟩
  intro c hc
  have := (placeChains_sound chains mSize [] table hplace).2 c hc
  rwa [hmod] at this

/-- Witness for C5 at chain ids 1 and 42: the packer settles at size 2
with id 42 in slot 0 and id 1 in slot 1. -/
theorem packer_slot_assignment_witness :
    (∀ cid, slotOf cid = (((0 * 1103515245 + 12345) + cid) * 1103515245 + 12345) % two32) ∧
    2 % two32 = 2 ∧
    (∀ c ∈ [auxW1, auxW2],
      slotLookup [(0, List.replicate 32 2), (1, List.replicate 32 1)] (slotOf c.chainID % 2) =
        some c.headerHash) ∧
    (∀ chains2 : List AuxChainJob,
      [auxW1, auxW2].map (fun c => (c.chainID, c.headerHash)) =
        chains2.map (fun c => (c.chainID, c.headerHash)) →
      ∀ f2 s2, packLoop [auxW1, auxW2] f2 s2 = packLoop chains2 f2 s2) :=
  packer_slot_assignment [auxW1, auxW2] 64 2
    [(0, List.replicate 32 2), (1, List.replicate 32 1)] (by rfl)

/-! ### Claim C7 — construction error cases -/

theorem newAuxChainJob_ok_chainID (H : HashFn) (t : BlockTemplate) (cfg : ChainConfig)
    (algo : Algo) (aj : AuxChainJob) (h : NewAuxChainJob H t cfg algo = Except.ok aj) :
    t.extras.chainID ≠ 0 := by
  intro hzero
  unfold NewAuxChainJob at h
  rw [hzero] at h
  repeat' split at h
  all_goals first
    | (rcases ite_eq_iff.mp h with ⟨hcond, hh⟩ | ⟨hcond, hh⟩ <;> exact Except.noConfusion hh)
    | simp_all

theorem processTemplates_ok_conditions (H : HashFn) (reg : List (String × ChainConfig))
    (algo : Algo) :
    ∀ (l : List (TemplateKey × BlockTemplate)) (mJob : Option (MainChainJob × BlockTemplate))
      (hs : List (String × Int)) (aux : List AuxChainJob)
      (res : Option (MainChainJob × BlockTemplate) × List (String × Int) × List AuxChainJob),
    processTemplates H reg algo l mJob hs aux = Except.ok res →
    (res.1.isSome ↔ (mJob.isSome ∨ 1 ≤ countMains l)) ∧
    (countMains l + (if mJob.isSome then 1 else 0) ≤ 1) ∧
    ∀ p ∈ l, (alookup reg p.1.currency).isSome ∧
      (p.1.templateType = "getblocktemplate" ∨ p.1.templateType = "getblocktemplate_aux") ∧
      (p.1.templateType = "getblocktemplate_aux" → p.2.extras.chainID ≠ 0) := by
  intro l
  induction l with
  | nil =>
    intro mJob hs aux res h
    simp only [processTemplates, Except.ok.injEq] at h
    subst h
    cases mJob <;> simp [countMains]
  | cons p rest ih =>
    intro mJob hs aux res h
    obtain ⟨k, t⟩ := p
    simp only [processTemplates] at h
    cases hreg : alookup reg k.currency with
    | none => rw [hreg] at h; simp at h
    | some cfg =>
      simp only [hreg] at h
      by_cases haux : k.templateType = "getblocktemplate_aux"
      · rw [if_pos haux] at h
        cases hnew : NewAuxChainJob H t cfg algo with
        | error e => rw [hnew] at h; simp at h
        | ok aj =>
          simp only [hnew] at h
          obtain ⟨hsome, hcount, hall⟩ := ih mJob _ _ res h
          have hcm : countMains ((k, t) :: rest) = countMains rest := by
            have : (k.templateType == "getblocktemplate") = false := by
              rw [haux]
              decide
            simp [countMains, List.filter_cons, this]
          refine ⟨?_, ?_, ?_⟩
          · rw [hsome, hcm]
          · rw [hcm]; exact hcount
          · intro q hq
            rcases List.mem_cons.mp hq with rfl | hq2
            · exact ⟨by simp [hreg], Or.inr haux,
                fun _ => newAuxChainJob_ok_chainID H t cfg algo aj hnew⟩
            · exact hall q hq2
      · rw [if_neg haux] at h
        by_cases hmain : k.templateType = "getblocktemplate"
        · rw [if_pos hmain] at h
          cases mJob with
          | some m0 => simp at h
          | none =>
            simp only [Option.isSome_none, Bool.false_eq_true, if_neg] at h
            cases hnew : NewMainChainJob H t cfg algo with
            | error e => rw [hnew] at h; simp at h
            | ok mj =>
              simp only [hnew] at h
              obtain ⟨hsome, hcount, hall⟩ := ih (some (mj, t)) _ _ res h
              have hcm : countMains ((k, t) :: rest) = countMains rest + 1 := by
                have : (k.templateType == "getblocktemplate") = true := by
                  rw [hmain]
                  rfl
                simp [countMains, List.filter_cons, this]
              have hcount2 : countMains rest + 1 ≤ 1 := by simpa using hcount
              have hrest0 : countMains rest = 0 := by omega
              refine ⟨?_, ?_, ?_⟩
              · rw [hsome]
                simp [hcm, hrest0]
              · simp [hcm, hrest0]
              · intro q hq
                rcases List.mem_cons.mp hq with rfl | hq2
                · exact ⟨by simp [hreg], Or.inl hmain, fun hc => absurd (hmain.symm.trans hc) (by decide)⟩
                · exact hall q hq2
        · rw [if_neg hmain] at h
          exact Except.noConfusion h

/-- Claim C7: whenever NewJobFromTemplates succeeds, the template list
held exactly one main getblocktemplate entry, every currency was present
in the registry, every template type was recognized, and every aux
template carried a non-zero chain id.  Contrapositively, violating any of
these conditions makes construction return an error and no Job — the
Except result models the atomic abort. -/
theorem newJob_ok_conditions (H : HashFn) (reg : List (String × ChainConfig))
    (templates : List (TemplateKey × BlockTemplate)) (algo : Algo) (job : Job)
    (h : NewJobFromTemplates H reg templates algo = Except.ok job) :
    countMains templates = 1 ∧
    ∀ p ∈ templates, (alookup reg p.1.currency).isSome ∧
      (p.1.templateType = "getblocktemplate" ∨ p.1.templateType = "getblocktemplate_aux") ∧
      (p.1.templateType = "getblocktemplate_aux" → p.2.extras.chainID ≠ 0) := by
  unfold NewJobFromTemplates at h
  cases hp : processTemplates H reg algo templates none [] [] with
  | error e => rw [hp] at h; simp at h
  | ok res =>
    obtain ⟨mo, hs2, aux⟩ := res
    obtain ⟨hsome, hcount, hall⟩ :=
      processTemplates_ok_conditions H reg algo templates none [] [] (mo, hs2, aux) hp
    cases mo with
    | none => rw [hp] at h; simp at h
    | some mi =>
      refine ⟨?_, hall⟩
      simp at hsome hcount
      omega

/-- Witness for C7 at a concrete successful construction. -/
theorem newJob_ok_conditions_witness :
    countMains [(keyW, tmplW)] = 1 ∧
    ∀ p ∈ [(keyW, tmplW)], (alookup regW p.1.currency).isSome ∧
      (p.1.templateType = "getblocktemplate" ∨ p.1.templateType = "getblocktemplate_aux") ∧
      (p.1.templateType = "getblocktemplate_aux" → p.2.extras.chainID ≠ 0) :=
  newJob_ok_conditions HW regW [(keyW, tmplW)] algoNone jobW (by rfl)

/-! ### Claim C6 — the merge-mining blob -/

/-- Claim C6: for every successfully built Job, the merge-mining blob fed
to the coinbase builder is empty when there are no aux chains, and
otherwise is exactly the magic marker 0xFA 0xBE 6D 6D, the byte-reversed
commitment (the single aux header hash with exactly one aux chain, the
merkle root of the packed slot table with more), the merkle size as
4-byte little-endian, and the nonce 0 as 4-byte little-endian; the job's
coinbase halves are the coinbase builder's output on that blob. -/
theorem mmBlob_structure (H : HashFn) (reg : List (String × ChainConfig))
    (templates : List (TemplateKey × BlockTemplate)) (algo : Algo) (job : Job)
    (h : NewJobFromTemplates H reg templates algo = Except.ok job) :
    (∀ base size n, mmBlob H [] base size n = []) ∧
    (∀ (mj : AuxChainJob) (rest : List AuxChainJob) (base : List (List Nat)) (size n : Nat),
      mmBlob H (mj :: rest) base size n =
        [250, 190, 109, 109] ++
          reverseBytes (if rest.isEmpty then mj.headerHash else merkleRootOfBase H base) ++
          le32 (size % two32) ++ le32 (n % two32)) ∧
    ∃ mi heights0 aux0 size table,
      processTemplates H reg algo templates none [] [] = Except.ok (some mi, heights0, aux0) ∧
      packLoop aux0 packFuel 1 = Except.ok (size, table) ∧
      createCoinbaseSplit mi.2 mi.1.currencyConfig
          (mmBlob H aux0 (materializeBase size table) size 0) =
        Except.ok (job.coinbase1, job.coinbase2) := by
  refine ⟨fun base size n => rfl, ?_, ?_⟩
  · intro mj rest base size n
    cases rest with
    | nil => simp [mmBlob]
    | cons b r => simp [mmBlob]
  · unfold NewJobFromTemplates at h
    cases hp : processTemplates H reg algo templates none [] [] with
    | error e => rw [hp] at h; simp at h
    | ok res =>
      obtain ⟨mo, heights0, aux0⟩ := res
      cases mo with
      | none => rw [hp] at h; simp at h
      | some mi =>
        simp only [hp] at h
        cases hl : packLoop aux0 packFuel 1 with
        | error e => rw [hl] at h; simp at h
        | ok st =>
          obtain ⟨size, table⟩ := st
          simp only [hl, createCoinbaseSplit] at h
          rw [Except.ok.injEq] at h
          subst h
          exact ⟨mi, heights0, aux0, size, table, rfl, hl, by rw [createCoinbaseSplit]⟩

/-- Witness for C6 at the concrete successful construction. -/
theorem mmBlob_structure_witness :
    (∀ base size n, mmBlob HW [] base size n = []) ∧
    (∀ (mj : AuxChainJob) (rest : List AuxChainJob) (base : List (List Nat)) (size n : Nat),
      mmBlob HW (mj :: rest) base size n =
        [250, 190, 109, 109] ++
          reverseBytes (if rest.isEmpty then mj.headerHash else merkleRootOfBase HW base) ++
          le32 (size % two32) ++ le32 (n % two32)) ∧
    ∃ mi heights0 aux0 size table,
      processTemplates HW regW algoNone [(keyW, tmplW)] none [] [] =
        Except.ok (some mi, heights0, aux0) ∧
      packLoop aux0 packFuel 1 = Except.ok (size, table) ∧
      createCoinbaseSplit mi.2 mi.1.currencyConfig
          (mmBlob HW aux0 (materializeBase size table) size 0) =
        Except.ok (jobW.coinbase1, jobW.coinbase2) :=
  mmBlob_structure HW regW [(keyW, tmplW)] algoNone jobW (by rfl)

/-! ### Claim C10 — packer termination -/

theorem slotOf_eq_of_mod (a b : Nat) (hab : a % two32 = b % two32) : slotOf a = slotOf b := by
  simp only [slotOf, hab]

theorem slotOf_mod31 (x : Nat) :
    slotOf x % 2 ^ 31 = ((12345 + x) * 1103515245 + 12345) % 2 ^ 31 := by
  have h32 : (2:Nat) ^ 32 = 4294967296 := by norm_num
  have h31 : (2:Nat) ^ 31 = 2147483648 := by norm_num
  simp only [slotOf, two32, h32, h31]
  omega

theorem slotOf_mod31_inj (a b : Nat) (h : a % 2 ^ 31 ≠ b % 2 ^ 31) :
    slotOf a % 2 ^ 31 ≠ slotOf b % 2 ^ 31 := by
  intro he
  apply h
  rw [slotOf_mod31, slotOf_mod31] at he
  have h1 : (12345 + a) * 1103515245 + 12345 ≡ (12345 + b) * 1103515245 + 12345 [MOD 2 ^ 31] := he
  have h2 := Nat.ModEq.add_right_cancel' 12345 h1
  rw [mul_comm (12345 + a), mul_comm (12345 + b)] at h2
  have hco : Nat.Coprime 1103515245 (2 ^ 31) :=
    Nat.Coprime.pow_right 31 (Nat.coprime_two_right.mpr (Nat.odd_iff.mpr (by norm_num)))
  have h3 := Nat.ModEq.cancel_left_of_coprime (hco.symm) h2
  exact Nat.ModEq.add_left_cancel' 12345 h3

theorem placeChains_pair_collision (a b : AuxChainJob)
    (hs : slotOf a.chainID = slotOf b.chainID) (size : Nat) (h0 : size % two32 ≠ 0) :
    placeChains [a, b] size [] = Except.ok none := by
  have hone : slotLookup [(slotOf b.chainID % (size % two32), a.headerHash)]
      (slotOf b.chainID % (size % two32)) = some a.headerHash := by
    simp [slotLookup]
  unfold placeChains
  rw [if_neg h0]
  show placeChains [b] size [(slotOf a.chainID % (size % two32), a.headerHash)] = Except.ok none
  unfold placeChains
  rw [if_neg h0, hs]
  simp only [hone]

theorem packLoop_pair_never (a b : AuxChainJob)
    (hs : slotOf a.chainID = slotOf b.chainID) :
    ∀ (fuel j s : Nat) (t : List (Nat × List Nat)),
    packLoop [a, b] fuel (2 ^ j) ≠ Except.ok (s, t) := by
  intro fuel
  induction fuel with
  | zero => intro j s t h; simp [packLoop] at h
  | succ n ih =>
    intro j s t h
    by_cases h0 : (2 : Nat) ^ j % two32 = 0
    · simp [packLoop, placeChains, h0] at h
    · have hcol := placeChains_pair_collision a b hs (2 ^ j) h0
      simp only [packLoop, hcol] at h
      rw [show (2:Nat) ^ j * 2 = 2 ^ (j + 1) by ring] at h
      exact ih (j + 1) s t h

theorem placeChains_ok_of_distinct (chains : List AuxChainJob) (size : Nat)
    (h0 : size % two32 ≠ 0) :
    ∀ acc, List.Pairwise (fun c1 c2 =>
      slotOf c1.chainID % (size % two32) ≠ slotOf c2.chainID % (size % two32)) chains →
    (∀ c ∈ chains, slotLookup acc (slotOf c.chainID % (size % two32)) = none) →
    ∃ t, placeChains chains size acc = Except.ok (some t) := by
  induction chains with
  | nil => intro acc _ _; exact ⟨acc, rfl⟩
  | cons c rest ih =>
    intro acc hpw hacc
    have hlook := hacc c (by simp)
    simp only [placeChains, if_neg h0, hlook]
    apply ih
    · exact (List.pairwise_cons.mp hpw).2
    · intro x hx
      have hne := (List.pairwise_cons.mp hpw).1 x hx
      have hxacc := hacc x (by simp [hx])
      simp only [slotLookup, hxacc, if_neg hne]

theorem packLoop_ok_of_distinct31 (chains : List AuxChainJob)
    (hd : List.Pairwise (fun c1 c2 => c1.chainID % 2 ^ 31 ≠ c2.chainID % 2 ^ 31) chains) :
    ∀ (fuel j : Nat), j ≤ 31 → 32 ≤ fuel + j →
    ∃ s t, packLoop chains fuel (2 ^ j) = Except.ok (s, t) := by
  intro fuel
  induction fuel with
  | zero => intro j hj hfj; omega
  | succ n ih =>
    intro j hj hfj
    have hlt : (2:Nat) ^ j < 2 ^ 32 := Nat.pow_lt_pow_right (by norm_num) (by omega)
    have h0 : (2:Nat) ^ j % two32 ≠ 0 := by
      rw [two32, Nat.mod_eq_of_lt hlt]
      positivity
    cases hp : placeChains chains (2 ^ j) [] with
    | error e =>
      obtain ⟨r, hr⟩ := placeChains_no_panic chains (2 ^ j) h0 []
      rw [hp] at hr
      exact Except.noConfusion hr
    | ok o =>
      cases o with
      | some t => exact ⟨2 ^ j, t, by simp [packLoop, hp]⟩
      | none =>
        have hj31 : j ≠ 31 := by
          intro hj31
          subst hj31
          have hmod : (2:Nat) ^ 31 % two32 = 2 ^ 31 := by
            rw [two32]
            exact Nat.mod_eq_of_lt (by norm_num)
          have hpw : List.Pairwise (fun c1 c2 =>
              slotOf c1.chainID % ((2 ^ 31) % two32) ≠
                slotOf c2.chainID % ((2 ^ 31) % two32)) chains := by
            refine hd.imp ?_
            intro c1 c2 hne
            rw [hmod]
            exact slotOf_mod31_inj _ _ hne
          obtain ⟨t, ht⟩ := placeChains_ok_of_distinct chains (2 ^ 31)
            (by rw [hmod]; positivity) [] hpw (fun c _ => rfl)
          rw [hp] at ht
          simp at ht
        obtain ⟨s, t, hst⟩ := ih (j + 1) (by omega) (by omega)
        refine ⟨s, t, ?_⟩
        simp only [packLoop, hp]
        rw [show (2:Nat) ^ j * 2 = 2 ^ (j + 1) by ring]
        exact hst

/-- Claim C10 (counterexample): the claim states the loop terminates with
an assignment whenever the chain ids are pairwise distinct modulo 2^32.
The ids 1 and 2^31 + 1 are distinct modulo 2^32, yet their slots agree
modulo every power of two up to 2^31, so every probed size collides until
merkleSize reaches 2^32, where uint32(merkleSize) is 0 and the slot
computation panics with a division by zero instead of terminating with an
assignment. -/
theorem packer_distinct_mod32_panics :
    auxP.chainID % two32 ≠ auxQ.chainID % two32 ∧
    packLoop [auxP, auxQ] 64 1 = Except.error "integer divide by zero" := by
  constructor
  · decide
  · rfl

/-- Claim C10 (amended): the packing loop terminates with a collision-free
assignment whenever the chain ids are pairwise distinct modulo 2^31 (32
doublings suffice); and for two aux chains sharing the same chain id
modulo 2^32 the loop never returns an assignment at any fuel — every size
up to 2^31 collides and size 2^32 hits the division-by-zero panic. -/
theorem packer_termination_sharp :
    (∀ chains : List AuxChainJob,
      List.Pairwise (fun c1 c2 => c1.chainID % 2 ^ 31 ≠ c2.chainID % 2 ^ 31) chains →
      ∃ s t, packLoop chains 32 1 = Except.ok (s, t)) ∧
    (∀ a b : AuxChainJob, a.chainID % two32 = b.chainID % two32 →
      ∀ (fuel s : Nat) (t : List (Nat × List Nat)),
        packLoop [a, b] fuel 1 ≠ Except.ok (s, t)) := by
  constructor
  · intro chains hd
    have h := packLoop_ok_of_distinct31 chains hd 32 0 (by omega) (by omega)
    simpa using h
  · intro a b hab fuel s t
    have hs := slotOf_eq_of_mod a.chainID b.chainID hab
    have h := packLoop_pair_never a b hs fuel 0 s t
    simpa using h

/-- Witness for the amended C10 theorem: ids 1 and 42 are distinct modulo
2^31 and the loop succeeds; ids 5 and 5 + 2^32 coincide modulo 2^32 and
the loop never returns an assignment. -/
theorem packer_termination_sharp_witness :
    (∃ s t, packLoop [auxW1, auxW2] 32 1 = Except.ok (s, t)) ∧
    ∀ (fuel s : Nat) (t : List (Nat × List Nat)),
      packLoop [auxR, auxS] fuel 1 ≠ Except.ok (s, t) :=
  ⟨packer_termination_sharp.1 [auxW1, auxW2] (by decide),
   fun fuel s t => packer_termination_sharp.2 auxR auxS (by decide) fuel s t⟩

end Ngpool
